import Mathlib

set_option maxRecDepth 8000

/-!
Verification of the DER/X.509 utility routines in
`ios/browser/api/certificate/utils/brave_certificate_x509_utils.cc`.

Byte spans are modelled as `List Nat` (each element one octet).  The
external DER primitive reader (`net::der::Parser`: `ReadTag`,
`ReadSequence`, `ReadRawTLV`, `HasMore`) is modelled by `readTLV` and
friends below, following the strict-DER tag/length rules the underlying
reader enforces (single-byte tags, definite minimally-encoded lengths).
The structural parsers of the repository are then translated function by
function.
-/

namespace X509Utils

/-- DER universal tag bytes used by the parsers (`net::der::kOid` etc.). -/
def kOid : Nat := 0x06
def kSequence : Nat := 0x30
def kBitString : Nat := 0x03
def kInteger : Nat := 0x02
def kNull : Nat := 0x05

/-- Big-endian value of a byte string, as accumulated by the reader's
length loop (`len <<= 8; len |= byte`). -/
def beVal (bs : List Nat) : Nat :=
  bs.foldl (fun acc byte => acc * 256 + byte) 0

/-- Model of the external DER length reader: reads a definite,
minimally-encoded length from the front of `xs`.  Returns the decoded
length, the raw length-field bytes consumed, and the remaining bytes.
Rejects indefinite form (first byte `0x80`), more than eight length
octets, a leading zero length octet, and a long form whose value would
fit the short form. -/
def readLengthBytes (xs : List Nat) : Option (Nat × List Nat × List Nat) :=
  match xs with
  | [] => none
  | b :: rest =>
    if b < 0x80 then some (b, [b], rest)
    else
      let numBytes := b - 0x80
      if numBytes = 0 then none
      else if 8 < numBytes then none
      else if rest.length < numBytes then none
      else
        let lenBytes := rest.take numBytes
        if lenBytes.head? = some 0 then none
        else
          let len := beVal lenBytes
          if len < 0x80 then none
          else some (len, b :: lenBytes, rest.drop numBytes)

/-- Model of the external DER TLV reader: reads one tag byte (rejecting
the unsupported high-tag-number form), a length, and that many content
bytes.  Returns `(tag, lengthFieldBytes, value, rest)`. -/
def readTLV (xs : List Nat) : Option (Nat × List Nat × List Nat × List Nat) :=
  match xs with
  | [] => none
  | tagByte :: r =>
    if tagByte % 32 = 31 then none
    else
      match readLengthBytes r with
      | none => none
      | some (len, lenBytes, r2) =>
        if r2.length < len then none
        else some (tagByte, lenBytes, r2.take len, r2.drop len)

/-- Model of `net::der::Parser::ReadTagAndValue` (used through `ReadTag`
and `ReadSequence`): yields the tag, the value contents, and the
remaining unconsumed bytes. -/
def readTagAndValue (xs : List Nat) : Option (Nat × List Nat × List Nat) :=
  match readTLV xs with
  | none => none
  | some (t, _, v, rest) => some (t, v, rest)

/-- Model of `net::der::Parser::ReadRawTLV`: yields the entire TLV
(header and value) and the remaining unconsumed bytes. -/
def readRawTLV (xs : List Nat) : Option (List Nat × List Nat) :=
  match readTLV xs with
  | none => none
  | some (t, lenBytes, v, rest) => some (t :: lenBytes ++ v, rest)

/-- `ParseAlgorithmIdentifier` from the source: open the outer SEQUENCE,
fail on outer trailing bytes, read the OID, then optionally read exactly
one raw TLV of parameters and fail on inner trailing bytes.  `none`
models `return false`; `some (algorithm_oid, parameters)` models
`return true` with the two out-parameters. -/
def ParseAlgorithmIdentifier (input : List Nat) :
    Option (List Nat × List Nat) :=
  match readTagAndValue input with
  | none => none
  | some (t, content, rest) =>
    if t ≠ kSequence then none
    else if rest ≠ [] then none
    else
      match readTagAndValue content with
      | none => none
      | some (t2, oid, rest2) =>
        if t2 ≠ kOid then none
        else if rest2 = [] then some (oid, [])
        else
          match readRawTLV rest2 with
          | none => none
          | some (params, rest3) =>
            if rest3 = [] then some (oid, params) else none

/-- `ParseAlgorithmSequence` from the source (the unwrapped form): read
the OID directly from the input, then require more data, read exactly
one raw TLV of parameters, and fail on trailing bytes. -/
def ParseAlgorithmSequence (input : List Nat) :
    Option (List Nat × List Nat) :=
  match readTagAndValue input with
  | none => none
  | some (t, oid, rest) =>
    if t ≠ kOid then none
    else if rest = [] then none
    else
      match readRawTLV rest with
      | none => none
      | some (params, rest2) =>
        if rest2 = [] then some (oid, params) else none

/-- `ParseSubjectPublicKeyInfo` from the source: open the SEQUENCE (no
outer trailing-byte check), read a SEQUENCE-tagged algorithm field,
require more data, read a BIT-STRING-tagged key field (no inner
trailing-byte check). -/
def ParseSubjectPublicKeyInfo (input : List Nat) :
    Option (List Nat × List Nat) :=
  match readTagAndValue input with
  | none => none
  | some (t, content, _) =>
    if t ≠ kSequence then none
    else
      match readTagAndValue content with
      | none => none
      | some (t2, algorithm_sequence, rest2) =>
        if t2 ≠ kSequence then none
        else if rest2 = [] then none
        else
          match readTagAndValue rest2 with
          | none => none
          | some (t3, spk, _) =>
            if t3 ≠ kBitString then none
            else some (algorithm_sequence, spk)

/-- `ParseRSAPublicKeyInfo` from the source: open the SEQUENCE (no
outer trailing-byte check), read an INTEGER modulus, require more data,
read an INTEGER exponent (no inner trailing-byte check). -/
def ParseRSAPublicKeyInfo (input : List Nat) :
    Option (List Nat × List Nat) :=
  match readTagAndValue input with
  | none => none
  | some (t, content, _) =>
    if t ≠ kSequence then none
    else
      match readTagAndValue content with
      | none => none
      | some (t2, modulus, rest2) =>
        if t2 ≠ kInteger then none
        else if rest2 = [] then none
        else
          match readTagAndValue rest2 with
          | none => none
          | some (t3, public_exponent, _) =>
            if t3 ≠ kInteger then none
            else some (modulus, public_exponent)

/-- `IsNull` from the source: read a NULL-tagged value, require an empty
content and no trailing bytes. -/
def IsNull (input : List Nat) : Bool :=
  match readTagAndValue input with
  | none => false
  | some (t, null_value, rest) =>
    t == kNull && null_value.isEmpty && rest.isEmpty

/-- Minimal big-endian byte string of `n` (empty for `n = 0`). -/
def beBytes (n : Nat) : List Nat :=
  if h : n = 0 then []
  else beBytes (n / 256) ++ [n % 256]
decreasing_by exact Nat.div_lt_self (Nat.pos_of_ne_zero h) (by norm_num)

/-- Canonical DER encoding of a definite length. -/
def encodeLength (n : Nat) : List Nat :=
  if n < 0x80 then [n] else (0x80 + (beBytes n).length) :: beBytes n

/-- Canonical DER TLV with the given tag byte and value contents. -/
def encodeTLV (tag : Nat) (value : List Nat) : List Nat :=
  tag :: encodeLength value.length ++ value

/-- Re-serialization of a parsed AlgorithmIdentifier: re-encode the OID
TLV, append the raw parameters TLV, and re-wrap in the SEQUENCE header. -/
def serializeAlgorithmIdentifier (oid params : List Nat) : List Nat :=
  encodeTLV kSequence (encodeTLV kOid oid ++ params)

/-- All elements of the span are octets. -/
abbrev ByteSpan (xs : List Nat) : Prop := ∀ b ∈ xs, b < 256

/-- Modelled from the spec: the external `net::ct` primitives used by
`ExtractEmbeddedSCT` (`ExtractEmbeddedSCTList`, `DecodeSCTList`, and
`DecodeSignedCertificateTimestamp`), abstracted over the certificate,
raw-list, serialized-record and decoded-entry types.  `decodeSCT`
returns the per-record success flag together with the (possibly only
partially filled) entry object left in the out-parameter. -/
structure CTEnv (Cert L R S : Type) where
  extractList : Cert → Option L
  decodeList : L → Option (List R)
  decodeSCT : R → Bool × S

/-- `ExtractEmbeddedSCT` from the source: extract the embedded SCT list,
decode it, fail on an empty list, then decode every record, appending
one entry per record to `scts` and and-ing each per-record success into
the aggregate flag.  Returns the aggregate flag (`return result`)
paired with the final state of the by-reference `scts` vector. -/
def ExtractEmbeddedSCT {Cert L R S : Type} (env : CTEnv Cert L R S)
    (cert : Cert) (scts : List S) : Bool × List S :=
  match env.extractList cert with
  | none => (false, scts)
  | some sct_list =>
    match env.decodeList sct_list with
    | none => (false, scts)
    | some parsed_scts =>
      if parsed_scts.isEmpty then (false, scts)
      else
        parsed_scts.foldl
          (fun acc parsed_sct =>
            ((env.decodeSCT parsed_sct).1 && acc.1,
             acc.2 ++ [(env.decodeSCT parsed_sct).2]))
          (true, scts)

/-- Modelled from the spec: the process-wide BoringSSL object registry
(`OBJ_cbs2nid`, `OBJ_nid2obj`, `OBJ_obj2txt`), abstracted over the
`ASN1_OBJECT` handle type.  `cbs2nid` returns `NID_undef = 0` for an
unknown OID byte string; `obj2txt` is the dotted-decimal rendering
requested with `no_name = 1`. -/
structure ObjRegistry (Obj : Type) where
  cbs2nid : List Nat → Int
  nid2obj : Int → Option Obj
  obj2txt : Obj → String

/-- `NID_undef` from the underlying library. -/
def NID_undef : Int := 0

/-- `OIDToNID` from the source: look the OID bytes up in the registry;
`none` models `return false` (out value left `-1`), `some nid` models
`return true` with `*out = nid`. -/
def OIDToNID {Obj : Type} (reg : ObjRegistry Obj) (input : List Nat) :
    Option Int :=
  let nid := reg.cbs2nid input
  if nid ≠ NID_undef then some nid else none

/-- `NIDToAbsoluteOID` from the source: resolve the NID via `OIDToNID`,
fetch the object, render it as dotted-decimal text; any failure yields
the empty string. -/
def NIDToAbsoluteOID {Obj : Type} (reg : ObjRegistry Obj)
    (input : List Nat) : String :=
  match OIDToNID reg input with
  | none => ""
  | some nid =>
    match reg.nid2obj nid with
    | none => ""
    | some object =>
      let buffer := reg.obj2txt object
      if 0 < buffer.length then buffer else ""

/-- The DER bytes of the RSA-encryption OID 1.2.840.113549.1.1.1. -/
def rsaEncryptionOID : List Nat := [0x2A, 0x86, 0x48, 0x86, 0xF7, 0x0D, 0x01, 0x01, 0x01]

/-- Modelled from the spec: the slice of the BoringSSL registry relevant
here — it maps the RSA-encryption OID bytes to `NID_rsaEncryption = 6`,
whose object renders as "1.2.840.113549.1.1.1", and knows no other OID. -/
def boringSSLRegistry : ObjRegistry Unit where
  cbs2nid := fun oid => if oid = rsaEncryptionOID then 6 else NID_undef
  nid2obj := fun nid => if nid = 6 then some () else none
  obj2txt := fun _ => "1.2.840.113549.1.1.1"

/-- Modelled from the spec: the external time-conversion primitive
`net::der::GeneralizedTimeToTime`, abstracted over the GeneralizedTime
and time types.  `default` is the default-constructed `base::Time`,
returned when conversion fails. -/
structure TimeEnv (GT T : Type) where
  default : T
  convert : GT → Option T

/-- `generalized_time_to_time` from the source: run the conversion
primitive and return its output, or the default-constructed time when it
fails; no error is ever signalled. -/
def generalized_time_to_time {GT T : Type} (env : TimeEnv GT T)
    (generalized_time : GT) : T :=
  match env.convert generalized_time with
  | none => env.default
  | some time => time

/-- Sample environment for the SCT extractor in which every record
decodes successfully. -/
def sampleCTEnv : CTEnv Unit Unit Nat Nat where
  extractList := fun _ => some ()
  decodeList := fun _ => some [1, 2]
  decodeSCT := fun r => (true, r)

/-- Sample environment for the SCT extractor in which the second record
fails to decode. -/
def sampleCTEnvBad : CTEnv Unit Unit Nat Nat where
  extractList := fun _ => some ()
  decodeList := fun _ => some [1, 2]
  decodeSCT := fun r => (r == 1, r)

/-- Sample environment for the time converter: conversion succeeds on
`true` and fails on `false`. -/
def sampleTimeEnv : TimeEnv Bool Nat where
  default := 0
  convert := fun b => if b then some 7 else none

/-- Acceptance condition of the wrapped AlgorithmIdentifier parser,
written from the spec's words: the span contains one DER SEQUENCE with
no bytes after it, whose content is one OID-tagged value optionally
followed by exactly one raw TLV with no bytes remaining after it. -/
def WellFormedAlgorithmIdentifier (input : List Nat) : Prop :=
  ∃ content oid,
    readTagAndValue input = some (kSequence, content, []) ∧
    (readTagAndValue content = some (kOid, oid, []) ∨
      ∃ rest tlv,
        readTagAndValue content = some (kOid, oid, rest) ∧
        readRawTLV rest = some (tlv, []))

/-! ### Structural lemmas about the DER reader model -/

theorem beVal_append_singleton (bs : List Nat) (b : Nat) :
    beVal (bs ++ [b]) = beVal bs * 256 + b := by
  simp [beVal, List.foldl_append]

theorem beVal_foldl_le (bs : List Nat) :
    ∀ a : Nat, a ≤ bs.foldl (fun acc byte => acc * 256 + byte) a := by
  induction bs with
  | nil => intro a; simp
  | cons b t ih =>
    intro a
    calc a ≤ a * 256 + b := by nlinarith
    _ ≤ t.foldl (fun acc byte => acc * 256 + byte) (a * 256 + b) := ih _
    _ = (b :: t).foldl (fun acc byte => acc * 256 + byte) a := by simp

theorem beVal_head_pos {h : Nat} {t : List Nat} (hh : h ≠ 0) :
    0 < beVal (h :: t) := by
  have h1 : h ≤ beVal (h :: t) := by
    have := beVal_foldl_le t h
    simpa [beVal] using this
  omega

theorem beBytes_zero : beBytes 0 = [] := by
  rw [beBytes]
  simp

theorem beBytes_small {b : Nat} (hb : b < 256) (hz : b ≠ 0) :
    beBytes b = [b] := by
  rw [beBytes]
  rw [dif_neg hz]
  rw [Nat.div_eq_of_lt hb, beBytes_zero, Nat.mod_eq_of_lt hb]
  simp

theorem beBytes_mul_add {v b : Nat} (hb : b < 256) (hv : 0 < v) :
    beBytes (v * 256 + b) = beBytes v ++ [b] := by
  have hne : v * 256 + b ≠ 0 := by nlinarith
  rw [beBytes, dif_neg hne]
  have hd : (v * 256 + b) / 256 = v := by
    rw [Nat.add_comm, Nat.add_mul_div_right b v (by norm_num : 0 < 256),
      Nat.div_eq_of_lt hb, Nat.zero_add]
  have hm : (v * 256 + b) % 256 = b := by omega
  rw [hd, hm]

theorem beBytes_beVal (bs : List Nat) (hne : bs ≠ [])
    (hh : bs.head? ≠ some 0) (hb : ∀ b ∈ bs, b < 256) :
    beBytes (beVal bs) = bs := by
  induction bs using List.reverseRecOn with
  | nil => exact absurd rfl hne
  | append_singleton ys b ih =>
    cases ys with
    | nil =>
      have hb' : b < 256 := hb b (by simp)
      have hz : b ≠ 0 := by
        intro hb0
        apply hh
        simp [hb0]
      simp only [List.nil_append] at *
      rw [show beVal [b] = b by simp [beVal]]
      exact beBytes_small hb' hz
    | cons h t =>
      have hh' : h ≠ 0 := by
        intro h0
        apply hh
        simp [h0]
      have hpos : 0 < beVal (h :: t) := beVal_head_pos hh'
      rw [beVal_append_singleton]
      rw [beBytes_mul_add (hb b (by simp)) hpos]
      rw [ih (by simp) (by simpa using hh)
        (fun x hx => hb x (List.mem_append_left [b] hx))]

theorem readLengthBytes_decomp {xs : List Nat} {len : Nat}
    {lb rest : List Nat}
    (h : readLengthBytes xs = some (len, lb, rest)) :
    xs = lb ++ rest := by
  cases xs with
  | nil => simp [readLengthBytes] at h
  | cons b r =>
    simp only [readLengthBytes] at h
    split_ifs at h with h1 h2 h3 h4 h5 h6
    · simp only [Option.some.injEq, Prod.mk.injEq] at h
      obtain ⟨-, h7, h8⟩ := h
      subst h7; subst h8
      simp
    · simp only [Option.some.injEq, Prod.mk.injEq] at h
      obtain ⟨-, h7, h8⟩ := h
      subst h7; subst h8
      simp [List.take_append_drop]

theorem readLengthBytes_short {xs : List Nat} {len : Nat}
    {lb rest : List Nat}
    (h : readLengthBytes xs = some (len, lb, rest)) (hs : len < 0x80) :
    lb = [len] := by
  cases xs with
  | nil => simp [readLengthBytes] at h
  | cons b r =>
    simp only [readLengthBytes] at h
    split_ifs at h with h1 h2 h3 h4 h5 h6
    · simp only [Option.some.injEq, Prod.mk.injEq] at h
      obtain ⟨h7, h8, -⟩ := h
      subst h7
      exact h8.symm
    · simp only [Option.some.injEq, Prod.mk.injEq] at h
      obtain ⟨h7, -, -⟩ := h
      omega

theorem readLengthBytes_canon {xs : List Nat} {len : Nat}
    {lb rest : List Nat}
    (h : readLengthBytes xs = some (len, lb, rest))
    (hb : ∀ b ∈ lb, b < 256) :
    lb = encodeLength len := by
  cases xs with
  | nil => simp [readLengthBytes] at h
  | cons b r =>
    simp only [readLengthBytes] at h
    split_ifs at h with h1 h2 h3 h4 h5 h6
    · simp only [Option.some.injEq, Prod.mk.injEq] at h
      obtain ⟨h7, h8, -⟩ := h
      subst h7
      rw [encodeLength, if_pos h1]
      exact h8.symm
    · simp only [Option.some.injEq, Prod.mk.injEq] at h
      obtain ⟨h7, h8, -⟩ := h
      subst h7
      have htlen : (r.take (b - 128)).length = b - 128 := by
        rw [List.length_take]
        omega
      have htne : r.take (b - 128) ≠ [] := by
        intro h0
        rw [h0] at htlen
        simp at htlen
        omega
      have hbytes : ∀ x ∈ r.take (b - 128), x < 256 := by
        intro x hx
        apply hb
        rw [← h8]
        simp [hx]
      have hround : beBytes (beVal (r.take (b - 128))) = r.take (b - 128) :=
        beBytes_beVal _ htne h5 hbytes
      have henc : encodeLength (beVal (r.take (b - 128))) =
          (0x80 + (beBytes (beVal (r.take (b - 128)))).length) ::
            beBytes (beVal (r.take (b - 128))) := by
        simp only [encodeLength, if_neg h6]
      rw [← h8, henc, hround, htlen]
      congr 1
      omega

theorem readTLV_decomp {xs : List Nat} {t : Nat} {lb v rest : List Nat}
    (h : readTLV xs = some (t, lb, v, rest)) :
    xs = t :: (lb ++ (v ++ rest)) ∧
      readLengthBytes (lb ++ (v ++ rest)) = some (v.length, lb, v ++ rest) := by
  cases xs with
  | nil => simp [readTLV] at h
  | cons tagByte r =>
    simp only [readTLV] at h
    split_ifs at h with h1
    cases h2 : readLengthBytes r with
    | none => rw [h2] at h; simp at h
    | some val =>
      obtain ⟨len, lenBytes, r2⟩ := val
      rw [h2] at h
      simp only at h
      split_ifs at h with h3
      simp only [Option.some.injEq, Prod.mk.injEq] at h
      obtain ⟨h4, h5, h6, h7⟩ := h
      subst h4; subst h5; subst h6; subst h7
      have hr : r = lenBytes ++ r2 := readLengthBytes_decomp h2
      have hvlen : (r2.take len).length = len := by
        rw [List.length_take]
        omega
      have hsplit : r2.take len ++ r2.drop len = r2 := List.take_append_drop _ _
      constructor
      · rw [hr, hsplit]
      · rw [hsplit, ← hr, h2, hvlen]

theorem readTLV_canon {xs : List Nat} {t : Nat} {lb v rest : List Nat}
    (h : readTLV xs = some (t, lb, v, rest)) (hb : ByteSpan xs) :
    xs = t :: (encodeLength v.length ++ (v ++ rest)) := by
  obtain ⟨hx, hl⟩ := readTLV_decomp h
  have hlb : ∀ b ∈ lb, b < 256 := by
    intro b hbmem
    apply hb
    rw [hx]
    simp [hbmem]
  rw [hx, readLengthBytes_canon hl hlb]

theorem readTagAndValue_nil : readTagAndValue [] = none := rfl

theorem readTagAndValue_ne_nil {xs : List Nat} {t : Nat} {v rest : List Nat}
    (h : readTagAndValue xs = some (t, v, rest)) : xs ≠ [] := by
  intro h0
  rw [h0, readTagAndValue_nil] at h
  exact Option.noConfusion h

theorem readTagAndValue_readTLV {xs : List Nat} {t : Nat} {v rest : List Nat}
    (h : readTagAndValue xs = some (t, v, rest)) :
    ∃ lb, readTLV xs = some (t, lb, v, rest) := by
  unfold readTagAndValue at h
  cases h1 : readTLV xs with
  | none => rw [h1] at h; exact Option.noConfusion h
  | some val =>
    obtain ⟨t', lb, v', rest'⟩ := val
    rw [h1] at h
    simp only [Option.some.injEq, Prod.mk.injEq] at h
    obtain ⟨ht, hv, hr⟩ := h
    subst ht; subst hv; subst hr
    exact ⟨lb, rfl⟩

theorem readRawTLV_readTLV {xs : List Nat} {tlv rest : List Nat}
    (h : readRawTLV xs = some (tlv, rest)) :
    ∃ t lb v, readTLV xs = some (t, lb, v, rest) ∧ tlv = t :: (lb ++ v) := by
  unfold readRawTLV at h
  cases h1 : readTLV xs with
  | none => rw [h1] at h; exact Option.noConfusion h
  | some val =>
    obtain ⟨t, lb, v, rest'⟩ := val
    rw [h1] at h
    simp only [Option.some.injEq, Prod.mk.injEq] at h
    obtain ⟨ht, hr⟩ := h
    subst hr
    exact ⟨t, lb, v, rfl, by rw [← ht]; simp⟩

/-- A raw TLV read consumes exactly the bytes of the returned TLV: the
input is the TLV followed by the remainder. -/
theorem readRawTLV_decomp {xs : List Nat} {tlv rest : List Nat}
    (h : readRawTLV xs = some (tlv, rest)) : xs = tlv ++ rest := by
  obtain ⟨t, lb, v, h1, h2⟩ := readRawTLV_readTLV h
  obtain ⟨h3, -⟩ := readTLV_decomp h1
  rw [h3, h2]
  simp

/-- Inversion of a successful `ParseAlgorithmIdentifier` run: the input
is one SEQUENCE with nothing after it, the content starts with the OID,
and the parameters are either absent (empty span) or the raw TLV that
consumes the entire remainder of the content. -/
theorem parseAlgorithmIdentifier_inv {input oid params : List Nat}
    (h : ParseAlgorithmIdentifier input = some (oid, params)) :
    ∃ content,
      readTagAndValue input = some (kSequence, content, []) ∧
      ((readTagAndValue content = some (kOid, oid, []) ∧ params = []) ∨
        (∃ rest2, readTagAndValue content = some (kOid, oid, rest2) ∧
          readRawTLV rest2 = some (params, []))) := by
  unfold ParseAlgorithmIdentifier at h
  split at h
  · exact absurd h (by simp)
  rename_i t content rest heq1
  split_ifs at h with ht hrest
  rw [not_ne_iff] at ht
  rw [not_ne_iff] at hrest
  subst ht
  subst hrest
  refine ⟨content, heq1, ?_⟩
  split at h
  · exact absurd h (by simp)
  rename_i t2 oid2 rest2 heq2
  split_ifs at h with ht2 hrest2
  · rw [not_ne_iff] at ht2
    subst ht2
    simp only [Option.some.injEq, Prod.mk.injEq] at h
    obtain ⟨hoid, hparams⟩ := h
    subst hoid
    subst hrest2
    exact Or.inl ⟨heq2, hparams.symm⟩
  · rw [not_ne_iff] at ht2
    subst ht2
    split at h
    · exact absurd h (by simp)
    rename_i params2 rest3 heq3
    split_ifs at h with hrest3
    simp only [Option.some.injEq, Prod.mk.injEq] at h
    obtain ⟨hoid, hparams⟩ := h
    subst hoid
    subst hrest3
    rw [← hparams]
    exact Or.inr ⟨rest2, heq2, heq3⟩

/-! ### Claim theorems -/

/-- C4: the NULL validator `IsNull` returns true exactly for the
two-byte encoding `05 00`; it rejects any non-NULL tag, any NULL TLV
with non-zero content length, and any trailing bytes after the NULL. -/
theorem isNull_accepts_exactly_0500 (input : List Nat) :
    IsNull input = true ↔ input = [kNull, 0] := by
  constructor
  · intro h
    unfold IsNull at h
    cases h1 : readTagAndValue input with
    | none => rw [h1] at h; simp at h
    | some val =>
      obtain ⟨t, v, rest⟩ := val
      rw [h1] at h
      simp only [Bool.and_eq_true, beq_iff_eq, List.isEmpty_iff] at h
      obtain ⟨⟨ht, hv⟩, hr⟩ := h
      subst ht; subst hv; subst hr
      obtain ⟨lb, htlv⟩ := readTagAndValue_readTLV h1
      obtain ⟨hx, hl⟩ := readTLV_decomp htlv
      have hlb : lb = [0] := by
        have h2 := readLengthBytes_short hl (by norm_num)
        simpa using h2
      rw [hx, hlb]
      simp
  · intro h
    subst h
    decide

/-- C4 witness: `IsNull` accepts `05 00`. -/
theorem isNull_accepts_exactly_0500_witness : IsNull [kNull, 0] = true :=
  (isNull_accepts_exactly_0500 [kNull, 0]).mpr rfl

/-- C2: on a span that is exactly one well-formed OID TLV,
`ParseAlgorithmSequence` (unwrapped form) fails because it requires at
least one field after the OID, while `ParseAlgorithmIdentifier`
(wrapped form) accepts the corresponding OID-only SEQUENCE with an
empty parameters span. -/
theorem oid_only_rejected_unwrapped_accepted_wrapped
    (input oid w : List Nat)
    (h1 : readTagAndValue input = some (kOid, oid, []))
    (h2 : readTagAndValue w = some (kSequence, input, [])) :
    ParseAlgorithmSequence input = none ∧
      ParseAlgorithmIdentifier w = some (oid, []) := by
  constructor
  · unfold ParseAlgorithmSequence
    rw [h1]
    simp
  · unfold ParseAlgorithmIdentifier
    rw [h2]
    simp only [kSequence] at *
    simp [h1]

/-- C2 witness: the OID TLV `06 01 2A` alone is rejected by the
unwrapped form, while the SEQUENCE `30 03 06 01 2A` is accepted by the
wrapped form with empty parameters. -/
theorem oid_only_rejected_unwrapped_accepted_wrapped_witness :
    ParseAlgorithmSequence [0x06, 0x01, 0x2A] = none ∧
      ParseAlgorithmIdentifier [0x30, 0x03, 0x06, 0x01, 0x2A] =
        some ([0x2A], []) :=
  oid_only_rejected_unwrapped_accepted_wrapped [0x06, 0x01, 0x2A] [0x2A]
    [0x30, 0x03, 0x06, 0x01, 0x2A] (by decide) (by decide)

/-- C5: `ParseSubjectPublicKeyInfo` performs no trailing-data check
after the BIT STRING and `ParseRSAPublicKeyInfo` none after the
exponent INTEGER: with extra bytes left inside the sequence after the
required fields, both parsers still succeed. -/
theorem spki_rsa_tolerate_inner_trailing_bytes :
    (∀ input content outer algSeq rest spk extra : List Nat,
      readTagAndValue input = some (kSequence, content, outer) →
      readTagAndValue content = some (kSequence, algSeq, rest) →
      readTagAndValue rest = some (kBitString, spk, extra) →
      extra ≠ [] →
      ParseSubjectPublicKeyInfo input = some (algSeq, spk)) ∧
    (∀ input content outer modulus rest exponent extra : List Nat,
      readTagAndValue input = some (kSequence, content, outer) →
      readTagAndValue content = some (kInteger, modulus, rest) →
      readTagAndValue rest = some (kInteger, exponent, extra) →
      extra ≠ [] →
      ParseRSAPublicKeyInfo input = some (modulus, exponent)) := by
  constructor
  · intro input content outer algSeq rest spk extra h1 h2 h3 _hextra
    have hrest : rest ≠ [] := readTagAndValue_ne_nil h3
    unfold ParseSubjectPublicKeyInfo
    rw [h1]
    simp [h2, h3, hrest]
  · intro input content outer modulus rest exponent extra h1 h2 h3 _hextra
    have hrest : rest ≠ [] := readTagAndValue_ne_nil h3
    unfold ParseRSAPublicKeyInfo
    rw [h1]
    simp [h2, h3, hrest]

/-- C5 witness: concrete SPKI and RSA inputs with one junk byte left
inside the sequence after the required fields are both accepted. -/
theorem spki_rsa_tolerate_inner_trailing_bytes_witness :
    ParseSubjectPublicKeyInfo [0x30, 6, 0x30, 0, 0x03, 1, 0, 0xFF] =
      some ([], [0]) ∧
    ParseRSAPublicKeyInfo [0x30, 7, 0x02, 1, 5, 0x02, 1, 3, 0xFF] =
      some ([5], [3]) :=
  ⟨spki_rsa_tolerate_inner_trailing_bytes.1
      [0x30, 6, 0x30, 0, 0x03, 1, 0, 0xFF] [0x30, 0, 0x03, 1, 0, 0xFF] []
      [] [0x03, 1, 0, 0xFF] [0] [0xFF]
      (by decide) (by decide) (by decide) (by decide),
   spki_rsa_tolerate_inner_trailing_bytes.2
      [0x30, 7, 0x02, 1, 5, 0x02, 1, 3, 0xFF] [0x02, 1, 5, 0x02, 1, 3, 0xFF]
      [] [5] [0x02, 1, 3, 0xFF] [3] [0xFF]
      (by decide) (by decide) (by decide) (by decide)⟩

/-- C9: `ParseSubjectPublicKeyInfo` and `ParseRSAPublicKeyInfo` also
tolerate trailing bytes after the outer SEQUENCE (the outer parser's
remaining data is never checked), unlike `ParseAlgorithmIdentifier`,
which fails whenever bytes remain after the SEQUENCE. -/
theorem spki_rsa_tolerate_outer_trailing_bytes :
    (∀ input content outer algSeq rest spk extra : List Nat,
      readTagAndValue input = some (kSequence, content, outer) →
      outer ≠ [] →
      readTagAndValue content = some (kSequence, algSeq, rest) →
      readTagAndValue rest = some (kBitString, spk, extra) →
      ParseSubjectPublicKeyInfo input = some (algSeq, spk)) ∧
    (∀ input content outer modulus rest exponent extra : List Nat,
      readTagAndValue input = some (kSequence, content, outer) →
      outer ≠ [] →
      readTagAndValue content = some (kInteger, modulus, rest) →
      readTagAndValue rest = some (kInteger, exponent, extra) →
      ParseRSAPublicKeyInfo input = some (modulus, exponent)) ∧
    (∀ input content outer : List Nat,
      readTagAndValue input = some (kSequence, content, outer) →
      outer ≠ [] →
      ParseAlgorithmIdentifier input = none) := by
  refine ⟨?_, ?_, ?_⟩
  · intro input content outer algSeq rest spk extra h1 _houter h2 h3
    have hrest : rest ≠ [] := readTagAndValue_ne_nil h3
    unfold ParseSubjectPublicKeyInfo
    rw [h1]
    simp [h2, h3, hrest]
  · intro input content outer modulus rest exponent extra h1 _houter h2 h3
    have hrest : rest ≠ [] := readTagAndValue_ne_nil h3
    unfold ParseRSAPublicKeyInfo
    rw [h1]
    simp [h2, h3, hrest]
  · intro input content outer h1 houter
    unfold ParseAlgorithmIdentifier
    rw [h1]
    simp [houter]

/-- C9 witness: with one junk byte after the closed SEQUENCE, the SPKI
and RSA parsers succeed while the AlgorithmIdentifier parser fails. -/
theorem spki_rsa_tolerate_outer_trailing_bytes_witness :
    ParseSubjectPublicKeyInfo [0x30, 5, 0x30, 0, 0x03, 1, 0, 0xAA] =
      some ([], [0]) ∧
    ParseRSAPublicKeyInfo [0x30, 6, 0x02, 1, 5, 0x02, 1, 3, 0xBB] =
      some ([5], [3]) ∧
    ParseAlgorithmIdentifier [0x30, 3, 0x06, 1, 0x2A, 0xCC] = none :=
  ⟨spki_rsa_tolerate_outer_trailing_bytes.1
      [0x30, 5, 0x30, 0, 0x03, 1, 0, 0xAA] [0x30, 0, 0x03, 1, 0] [0xAA]
      [] [0x03, 1, 0] [0] []
      (by decide) (by decide) (by decide) (by decide),
   spki_rsa_tolerate_outer_trailing_bytes.2.1
      [0x30, 6, 0x02, 1, 5, 0x02, 1, 3, 0xBB] [0x02, 1, 5, 0x02, 1, 3]
      [0xBB] [5] [0x02, 1, 3] [3] []
      (by decide) (by decide) (by decide) (by decide),
   spki_rsa_tolerate_outer_trailing_bytes.2.2
      [0x30, 3, 0x06, 1, 0x2A, 0xCC] [0x06, 1, 0x2A] [0xCC]
      (by decide) (by decide)⟩

/-- Unrolling of the per-record decode loop of `ExtractEmbeddedSCT`:
the aggregate flag is the conjunction of the per-record flags with the
initial flag, and exactly one entry is appended per record. -/
theorem sct_decode_foldl {R S : Type} (decodeSCT : R → Bool × S)
    (parsed : List R) :
    ∀ (b : Bool) (scts : List S),
      parsed.foldl
        (fun acc r => ((decodeSCT r).1 && acc.1, acc.2 ++ [(decodeSCT r).2]))
        (b, scts) =
      (b && parsed.all (fun r => (decodeSCT r).1),
        scts ++ parsed.map (fun r => (decodeSCT r).2)) := by
  induction parsed with
  | nil => intro b scts; simp
  | cons r rs ih =>
    intro b scts
    simp only [List.foldl_cons, List.all_cons, List.map_cons]
    rw [ih]
    simp only [Prod.mk.injEq]
    constructor
    · cases (decodeSCT r).1 <;> cases b <;> simp
    · simp

/-- C1: `ExtractEmbeddedSCT` returns false when the embedded-SCT
extension is absent, when the SCT list fails to decode, and when the
list decodes to zero entries; in the per-record phase the aggregate
flag is true iff every record decodes successfully, while every record
contributes one entry to the output collection. -/
theorem extractEmbeddedSCT_aggregate {Cert L R S : Type}
    (env : CTEnv Cert L R S) (cert : Cert) (scts : List S) :
    (env.extractList cert = none →
      ExtractEmbeddedSCT env cert scts = (false, scts)) ∧
    (∀ l, env.extractList cert = some l → env.decodeList l = none →
      ExtractEmbeddedSCT env cert scts = (false, scts)) ∧
    (∀ l, env.extractList cert = some l → env.decodeList l = some [] →
      ExtractEmbeddedSCT env cert scts = (false, scts)) ∧
    (∀ l parsed, env.extractList cert = some l →
      env.decodeList l = some parsed → parsed ≠ [] →
      ((ExtractEmbeddedSCT env cert scts).1 = true ↔
        ∀ r ∈ parsed, (env.decodeSCT r).1 = true) ∧
      (ExtractEmbeddedSCT env cert scts).2 =
        scts ++ parsed.map (fun r => (env.decodeSCT r).2)) := by
  refine ⟨?_, ?_, ?_, ?_⟩
  · intro h
    simp [ExtractEmbeddedSCT, h]
  · intro l h1 h2
    simp [ExtractEmbeddedSCT, h1, h2]
  · intro l h1 h2
    simp [ExtractEmbeddedSCT, h1, h2]
  · intro l parsed h1 h2 h3
    have hfold : ExtractEmbeddedSCT env cert scts =
        (true && parsed.all (fun r => (env.decodeSCT r).1),
          scts ++ parsed.map (fun r => (env.decodeSCT r).2)) := by
      simp only [ExtractEmbeddedSCT, h1, h2]
      rw [if_neg (by simpa [List.isEmpty_iff] using h3)]
      exact sct_decode_foldl _ _ _ _
    rw [hfold]
    constructor
    · simp [List.all_eq_true]
    · rfl

/-- C1 witness: with two well-formed records, the aggregate flag is
true and both decoded entries appear in order. -/
theorem extractEmbeddedSCT_aggregate_witness :
    (ExtractEmbeddedSCT sampleCTEnv () []).1 = true ∧
    (ExtractEmbeddedSCT sampleCTEnv () []).2 = [1, 2] := by
  have h := (extractEmbeddedSCT_aggregate sampleCTEnv () []).2.2.2
    () [1, 2] rfl rfl (by decide)
  exact ⟨h.1.mpr (by decide), by rw [h.2]; decide⟩

/-- C10: whenever `ExtractEmbeddedSCT` reaches the per-record decode
phase, the number of entries appended equals the decoded list's length
(even when some records fail), and on the earlier failure paths the
output collection is left unchanged. -/
theorem extractEmbeddedSCT_entry_count {Cert L R S : Type}
    (env : CTEnv Cert L R S) (cert : Cert) (scts : List S) :
    (∀ l parsed, env.extractList cert = some l →
      env.decodeList l = some parsed → parsed ≠ [] →
      (ExtractEmbeddedSCT env cert scts).2.length =
        scts.length + parsed.length) ∧
    ((env.extractList cert = none ∨
      (∃ l, env.extractList cert = some l ∧ env.decodeList l = none) ∨
      (∃ l, env.extractList cert = some l ∧ env.decodeList l = some [])) →
      (ExtractEmbeddedSCT env cert scts).2 = scts) := by
  constructor
  · intro l parsed h1 h2 h3
    have hfold : ExtractEmbeddedSCT env cert scts =
        (true && parsed.all (fun r => (env.decodeSCT r).1),
          scts ++ parsed.map (fun r => (env.decodeSCT r).2)) := by
      simp only [ExtractEmbeddedSCT, h1, h2]
      rw [if_neg (by simpa [List.isEmpty_iff] using h3)]
      exact sct_decode_foldl _ _ _ _
    rw [hfold]
    simp
  · intro h
    rcases h with h | ⟨l, h1, h2⟩ | ⟨l, h1, h2⟩
    · simp [ExtractEmbeddedSCT, h]
    · simp [ExtractEmbeddedSCT, h1, h2]
    · simp [ExtractEmbeddedSCT, h1, h2]

/-- C10 witness: with one failing record out of two, two entries are
still appended. -/
theorem extractEmbeddedSCT_entry_count_witness :
    (ExtractEmbeddedSCT sampleCTEnvBad () []).2.length = 0 + 2 :=
  (extractEmbeddedSCT_entry_count sampleCTEnvBad () []).1
    () [1, 2] rfl rfl (by decide)

/-- C6: for an OID byte string unknown to the registry, `OIDToNID`
reports not-found and `NIDToAbsoluteOID` returns the empty string; the
RSA-encryption OID bytes resolve successfully and render as exactly
"1.2.840.113549.1.1.1". -/
theorem oid_resolution_behavior :
    (∀ (Obj : Type) (reg : ObjRegistry Obj) (input : List Nat),
      reg.cbs2nid input = NID_undef →
      OIDToNID reg input = none ∧ NIDToAbsoluteOID reg input = "") ∧
    (OIDToNID boringSSLRegistry rsaEncryptionOID).isSome = true ∧
    NIDToAbsoluteOID boringSSLRegistry rsaEncryptionOID =
      "1.2.840.113549.1.1.1" := by
  refine ⟨?_, by decide, by decide⟩
  intro Obj reg input h
  have h1 : OIDToNID reg input = none := by
    simp [OIDToNID, h]
  refine ⟨h1, ?_⟩
  simp [NIDToAbsoluteOID, h1]

/-- C6 witness: the garbage OID byte string `FF` is unmapped, yielding
not-found and the empty string. -/
theorem oid_resolution_behavior_witness :
    OIDToNID boringSSLRegistry [0xFF] = none ∧
      NIDToAbsoluteOID boringSSLRegistry [0xFF] = "" :=
  oid_resolution_behavior.1 Unit boringSSLRegistry [0xFF] (by decide)

/-- C8: `generalized_time_to_time` never signals an error: it returns
the underlying primitive's output on success and the
default-constructed time when the conversion fails. -/
theorem generalizedTime_infallible {GT T : Type} (env : TimeEnv GT T)
    (gt : GT) :
    (∀ t, env.convert gt = some t →
      generalized_time_to_time env gt = t) ∧
    (env.convert gt = none →
      generalized_time_to_time env gt = env.default) := by
  constructor
  · intro t h
    simp [generalized_time_to_time, h]
  · intro h
    simp [generalized_time_to_time, h]

/-- C8 witness: the sample conversion returns the converted value on
success and the default on failure. -/
theorem generalizedTime_infallible_witness :
    generalized_time_to_time sampleTimeEnv true = 7 ∧
      generalized_time_to_time sampleTimeEnv false = 0 :=
  ⟨(generalizedTime_infallible sampleTimeEnv true).1 7 (by decide),
   (generalizedTime_infallible sampleTimeEnv false).2 (by decide)⟩

/-- C3: `ParseAlgorithmIdentifier` succeeds exactly on the spans
described by `WellFormedAlgorithmIdentifier` (one SEQUENCE, no trailing
data at either level, one OID, at most one parameters TLV), and when no
parameters are present the parameters out-span is empty. -/
theorem parseAlgorithmIdentifier_characterization (input : List Nat) :
    ((ParseAlgorithmIdentifier input).isSome = true ↔
      WellFormedAlgorithmIdentifier input) ∧
    (∀ content oid,
      readTagAndValue input = some (kSequence, content, []) →
      readTagAndValue content = some (kOid, oid, []) →
      ParseAlgorithmIdentifier input = some (oid, [])) := by
  have hnp : ∀ content oid,
      readTagAndValue input = some (kSequence, content, []) →
      readTagAndValue content = some (kOid, oid, []) →
      ParseAlgorithmIdentifier input = some (oid, []) := by
    intro content oid h1 h2
    unfold ParseAlgorithmIdentifier
    rw [h1]
    simp only [kSequence] at *
    simp [h2]
  refine ⟨⟨?_, ?_⟩, hnp⟩
  · intro h
    rw [Option.isSome_iff_exists] at h
    obtain ⟨⟨oid, params⟩, h⟩ := h
    obtain ⟨content, h1, hcase⟩ := parseAlgorithmIdentifier_inv h
    rcases hcase with ⟨h2, -⟩ | ⟨rest2, h2, h3⟩
    · exact ⟨content, oid, h1, Or.inl h2⟩
    · exact ⟨content, oid, h1, Or.inr ⟨rest2, params, h2, h3⟩⟩
  · intro h
    obtain ⟨content, oid, h1, hcase⟩ := h
    rcases hcase with h2 | ⟨rest, tlv, h2, h3⟩
    · rw [hnp content oid h1 h2]
      rfl
    · have hrest : rest ≠ [] := by
        intro h0
        subst h0
        exact Option.noConfusion h3
      unfold ParseAlgorithmIdentifier
      rw [h1]
      simp only [kSequence, kOid] at *
      simp [h2, h3, hrest]

/-- C3 witness: the OID-only AlgorithmIdentifier `30 03 06 01 05`
parses with an empty parameters span. -/
theorem parseAlgorithmIdentifier_characterization_witness :
    ParseAlgorithmIdentifier [0x30, 3, 0x06, 1, 0x05] = some ([0x05], []) :=
  (parseAlgorithmIdentifier_characterization [0x30, 3, 0x06, 1, 0x05]).2
    [0x06, 1, 0x05] [0x05] (by decide) (by decide)

/-- C7: parsing a valid AlgorithmIdentifier encoding and re-serializing
the resulting `algorithm_oid` and `parameters` spans (re-wrapping them
in the SEQUENCE header) reproduces the original input bytes exactly. -/
theorem parse_serialize_roundtrip (input oid params : List Nat)
    (h : ParseAlgorithmIdentifier input = some (oid, params))
    (hb : ∀ b ∈ input, b < 256) :
    serializeAlgorithmIdentifier oid params = input := by
  obtain ⟨content, h1, hcase⟩ := parseAlgorithmIdentifier_inv h
  obtain ⟨lb1, htlv1⟩ := readTagAndValue_readTLV h1
  have canon1 : input =
      kSequence :: (encodeLength content.length ++ (content ++ [])) :=
    readTLV_canon htlv1 hb
  have hbc : ∀ b ∈ content, b < 256 := by
    intro b hbm
    apply hb
    rw [(readTLV_decomp htlv1).1]
    simp [hbm]
  rcases hcase with ⟨h2, hparams⟩ | ⟨rest2, h2, h3⟩
  · subst hparams
    obtain ⟨lb2, htlv2⟩ := readTagAndValue_readTLV h2
    have canon2 : content =
        kOid :: (encodeLength oid.length ++ (oid ++ [])) :=
      readTLV_canon htlv2 hbc
    have hc : content = encodeTLV kOid oid := by
      rw [canon2]
      simp [encodeTLV]
    rw [canon1, hc]
    simp [serializeAlgorithmIdentifier, encodeTLV]
  · obtain ⟨lb2, htlv2⟩ := readTagAndValue_readTLV h2
    have canon2 : content =
        kOid :: (encodeLength oid.length ++ (oid ++ rest2)) :=
      readTLV_canon htlv2 hbc
    have hrest2 : rest2 = params := by
      have hd := readRawTLV_decomp h3
      simpa using hd
    have hc : content = encodeTLV kOid oid ++ params := by
      rw [canon2, hrest2]
      simp [encodeTLV]
    rw [canon1, hc]
    simp [serializeAlgorithmIdentifier, encodeTLV]

/-- C7 witness: the encoding `30 05 06 01 2B 05 00` (OID `2B` with NULL
parameters) round-trips through parse and re-serialization. -/
theorem parse_serialize_roundtrip_witness :
    serializeAlgorithmIdentifier [0x2B] [0x05, 0] =
      [0x30, 5, 0x06, 1, 0x2B, 0x05, 0] :=
  parse_serialize_roundtrip [0x30, 5, 0x06, 1, 0x2B, 0x05, 0] [0x2B]
    [0x05, 0] (by decide) (by decide)

end X509Utils
